import Mathlib

set_option maxHeartbeats 1000000
set_option maxRecDepth 4000

namespace FloatFnTypes

/-- Sign range of a set of floats, embedding the Rust enum `Range` of
`float_fn_types`: `Full`, `Negative` (negative only) or `Positive`
(positive only). -/
inductive Range
  | Full
  | Negative
  | Positive
deriving DecidableEq, Fintype

/-- Tri-state possibility flag, embedding the Rust enum `Possible`:
`Yes`, `No`, or `WithRoundingError`. -/
inductive Possible
  | Yes
  | No
  | WithRoundingError
deriving DecidableEq, Fintype

/-- Embedding of the source's `or!` rule combining two possibility flags:
`Yes` if either is `Yes`, else `WithRoundingError` if either is, else `No`. -/
def orP (lhs rhs : Possible) : Possible :=
  if lhs = Possible.Yes ∨ rhs = Possible.Yes then Possible.Yes
  else if lhs = Possible.WithRoundingError ∨ rhs = Possible.WithRoundingError then
    Possible.WithRoundingError
  else Possible.No

/-- Embedding of `Range::opposite`. -/
def Range.opposite : Range → Range
  | Range.Full => Range.Full
  | Range.Negative => Range.Positive
  | Range.Positive => Range.Negative

/-- Embedding of `Range::can_be_positive`. -/
def Range.can_be_positive : Range → Possible
  | Range.Full => Possible.Yes
  | Range.Positive => Possible.Yes
  | Range.Negative => Possible.No

/-- Embedding of `Range::can_be_negative`. -/
def Range.can_be_negative : Range → Possible
  | Range.Full => Possible.Yes
  | Range.Negative => Possible.Yes
  | Range.Positive => Possible.No

/-- Embedding of the Rust struct `FloatPossibilities`: the classification
of a set of floats (can it be NaN, zero, infinite, and its sign range). -/
structure FloatPossibilities where
  nan : Possible
  zero : Possible
  infinite : Possible
  range : Range
deriving DecidableEq, Fintype

/-- Embedding of the Rust enum `FnArg`: a classification tagged with the
float width it describes (`f32` or `f64`). -/
inductive FnArg
  | F32 (p : FloatPossibilities)
  | F64 (p : FloatPossibilities)
deriving DecidableEq, Fintype

/-- Embedding of the source's `return_possibilities!` rule: apply the
classification transformer under either width tag, preserving the tag. -/
def return_possibilities (f : FloatPossibilities → FloatPossibilities) : FnArg → FnArg
  | FnArg.F32 lhs => FnArg.F32 (f lhs)
  | FnArg.F64 lhs => FnArg.F64 (f lhs)

/-- The classification carried by an `FnArg`, either width. -/
def FnArg.possibilities : FnArg → FloatPossibilities
  | FnArg.F32 p => p
  | FnArg.F64 p => p

namespace core

namespace ops

/-- Inner classification rule of `core::ops::neg`. -/
def neg_possibilities (lhs : FloatPossibilities) : FloatPossibilities :=
  { lhs with range := lhs.range.opposite }

/-- Embedding of `core::ops::neg`. -/
def neg (lhs : FnArg) : FnArg := return_possibilities neg_possibilities lhs

/-- Inner classification rule of `core::ops::abs`. -/
def abs_possibilities (lhs : FloatPossibilities) : FloatPossibilities :=
  { lhs with range := Range.Positive }

/-- Embedding of `core::ops::abs`. -/
def abs (lhs : FnArg) : FnArg := return_possibilities abs_possibilities lhs

/-- Inner classification rule of `core::ops::ceil`. -/
def ceil_possibilities (lhs : FloatPossibilities) : FloatPossibilities :=
  { lhs with zero := orP lhs.zero lhs.range.can_be_negative }

/-- Embedding of `core::ops::ceil`. -/
def ceil (lhs : FnArg) : FnArg := return_possibilities ceil_possibilities lhs

/-- Inner classification rule of `core::ops::floor`. -/
def floor_possibilities (lhs : FloatPossibilities) : FloatPossibilities :=
  { lhs with zero := orP lhs.zero lhs.range.can_be_positive }

/-- Embedding of `core::ops::floor`. -/
def floor (lhs : FnArg) : FnArg := return_possibilities floor_possibilities lhs

/-- Inner classification rule of `core::ops::round`. -/
def round_possibilities (lhs : FloatPossibilities) : FloatPossibilities :=
  { lhs with zero := Possible.Yes }

/-- Embedding of `core::ops::round`. -/
def round (lhs : FnArg) : FnArg := return_possibilities round_possibilities lhs

/-- Inner classification rule of `core::ops::trunc`. -/
def trunc_possibilities (lhs : FloatPossibilities) : FloatPossibilities :=
  { lhs with zero := Possible.Yes }

/-- Embedding of `core::ops::trunc`. -/
def trunc (lhs : FnArg) : FnArg := return_possibilities trunc_possibilities lhs

/-- Inner classification rule of `core::ops::fract`. -/
def fract_possibilities (lhs : FloatPossibilities) : FloatPossibilities :=
  { nan := orP lhs.nan lhs.infinite
    zero := Possible.Yes
    infinite := lhs.infinite
    range :=
      if lhs.range.can_be_negative = Possible.Yes then Range.Full else Range.Positive }

/-- Embedding of `core::ops::fract`. -/
def fract (lhs : FnArg) : FnArg := return_possibilities fract_possibilities lhs

/-- Inner classification rule of `core::ops::signum`. -/
def signum_possibilities (lhs : FloatPossibilities) : FloatPossibilities :=
  { nan := Possible.No
    zero := Possible.No
    infinite := Possible.No
    range := lhs.range }

/-- Embedding of `core::ops::signum`. -/
def signum (lhs : FnArg) : FnArg := return_possibilities signum_possibilities lhs

/-- Inner classification rule of `core::ops::sqrt`. -/
def sqrt_possibilities (lhs : FloatPossibilities) : FloatPossibilities :=
  { lhs with nan := lhs.range.can_be_negative }

/-- Embedding of `core::ops::sqrt`. -/
def sqrt (lhs : FnArg) : FnArg := return_possibilities sqrt_possibilities lhs

/-- Inner classification rule of `core::ops::exp`. -/
def exp_possibilities (lhs : FloatPossibilities) : FloatPossibilities :=
  { nan := lhs.nan
    zero := lhs.range.can_be_negative
    infinite := lhs.range.can_be_positive
    range := Range.Positive }

/-- Embedding of `core::ops::exp`. -/
def exp (lhs : FnArg) : FnArg := return_possibilities exp_possibilities lhs

/-- Embedding of `core::ops::exp2`, which delegates to `exp`. -/
def exp2 (lhs : FnArg) : FnArg := exp lhs

/-- Inner classification rule of `core::ops::ln`. -/
def ln_possibilities (lhs : FloatPossibilities) : FloatPossibilities :=
  { nan := lhs.range.can_be_negative
    zero := lhs.range.can_be_positive
    infinite := orP lhs.infinite lhs.zero
    range := Range.Full }

/-- Embedding of `core::ops::ln`. -/
def ln (lhs : FnArg) : FnArg := return_possibilities ln_possibilities lhs

/-- Embedding of `core::ops::log2`, which delegates to `ln`. -/
def log2 (lhs : FnArg) : FnArg := ln lhs

/-- Embedding of `core::ops::log10`, which delegates to `ln`. -/
def log10 (lhs : FnArg) : FnArg := ln lhs

/-- Inner classification rule of `core::ops::to_degrees`. -/
def to_degrees_possibilities (lhs : FloatPossibilities) : FloatPossibilities :=
  { lhs with infinite := Possible.Yes }

/-- Embedding of `core::ops::to_degrees`. -/
def to_degrees (lhs : FnArg) : FnArg := return_possibilities to_degrees_possibilities lhs

/-- Embedding of `core::ops::to_radians`, the identity on the argument. -/
def to_radians (lhs : FnArg) : FnArg := lhs

/-- Embedding of `core::ops::cbrt`, the identity on the argument. -/
def cbrt (lhs : FnArg) : FnArg := lhs

/-- Inner classification rule of `core::ops::sin`. -/
def sin_possibilities (lhs : FloatPossibilities) : FloatPossibilities :=
  { nan := orP lhs.nan lhs.infinite
    zero := Possible.Yes
    infinite := Possible.No
    range := Range.Full }

/-- Embedding of `core::ops::sin`. -/
def sin (lhs : FnArg) : FnArg := return_possibilities sin_possibilities lhs

/-- Embedding of `core::ops::cos`, which delegates to `sin`. -/
def cos (lhs : FnArg) : FnArg := sin lhs

/-- Inner classification rule of `core::ops::tan`. -/
def tan_possibilities (lhs : FloatPossibilities) : FloatPossibilities :=
  { nan := orP lhs.nan lhs.infinite
    zero := Possible.Yes
    infinite := Possible.Yes
    range := Range.Full }

/-- Embedding of `core::ops::tan`. -/
def tan (lhs : FnArg) : FnArg := return_possibilities tan_possibilities lhs

/-- Inner classification rule of `core::ops::asin`. -/
def asin_possibilities (lhs : FloatPossibilities) : FloatPossibilities :=
  { nan := Possible.Yes
    zero := lhs.zero
    infinite := Possible.No
    range := lhs.range }

/-- Embedding of `core::ops::asin`. -/
def asin (lhs : FnArg) : FnArg := return_possibilities asin_possibilities lhs

/-- Inner classification rule of `core::ops::acos`, independent of input. -/
def acos_possibilities (_lhs : FloatPossibilities) : FloatPossibilities :=
  { nan := Possible.Yes
    zero := Possible.Yes
    infinite := Possible.No
    range := Range.Positive }

/-- Embedding of `core::ops::acos`. -/
def acos (lhs : FnArg) : FnArg := return_possibilities acos_possibilities lhs

/-- Inner classification rule of `core::ops::atan`. -/
def atan_possibilities (lhs : FloatPossibilities) : FloatPossibilities :=
  { lhs with infinite := Possible.No }

/-- Embedding of `core::ops::atan`. -/
def atan (lhs : FnArg) : FnArg := return_possibilities atan_possibilities lhs

/-- Inner classification rule of `core::ops::exp_m1`. -/
def exp_m1_possibilities (lhs : FloatPossibilities) : FloatPossibilities :=
  { lhs with infinite := lhs.range.can_be_positive }

/-- Embedding of `core::ops::exp_m1`. -/
def exp_m1 (lhs : FnArg) : FnArg := return_possibilities exp_m1_possibilities lhs

/-- Inner classification rule of `core::ops::ln_1p`. -/
def ln_1p_possibilities (lhs : FloatPossibilities) : FloatPossibilities :=
  { lhs with
    range := Range.Positive
    nan := orP lhs.nan lhs.range.can_be_negative }

/-- Embedding of `core::ops::ln_1p`. -/
def ln_1p (lhs : FnArg) : FnArg := return_possibilities ln_1p_possibilities lhs

/-- Inner classification rule of `core::ops::sinh`. -/
def sinh_possibilities (lhs : FloatPossibilities) : FloatPossibilities :=
  { lhs with infinite := Possible.Yes }

/-- Embedding of `core::ops::sinh`. -/
def sinh (lhs : FnArg) : FnArg := return_possibilities sinh_possibilities lhs

/-- Inner classification rule of `core::ops::cosh`. -/
def cosh_possibilities (lhs : FloatPossibilities) : FloatPossibilities :=
  { nan := lhs.nan
    zero := Possible.No
    infinite := Possible.Yes
    range := Range.Positive }

/-- Embedding of `core::ops::cosh`. -/
def cosh (lhs : FnArg) : FnArg := return_possibilities cosh_possibilities lhs

/-- Inner classification rule of `core::ops::tanh`. -/
def tanh_possibilities (lhs : FloatPossibilities) : FloatPossibilities :=
  { lhs with infinite := Possible.No }

/-- Embedding of `core::ops::tanh`. -/
def tanh (lhs : FnArg) : FnArg := return_possibilities tanh_possibilities lhs

/-- Inner classification rule of `core::ops::asinh`. -/
def asinh_possibilities (lhs : FloatPossibilities) : FloatPossibilities :=
  { lhs with infinite := Possible.Yes }

/-- Embedding of `core::ops::asinh`. -/
def asinh (lhs : FnArg) : FnArg := return_possibilities asinh_possibilities lhs

/-- Inner classification rule of `core::ops::acosh`, independent of input. -/
def acosh_possibilities (_lhs : FloatPossibilities) : FloatPossibilities :=
  { nan := Possible.Yes
    zero := Possible.Yes
    infinite := Possible.Yes
    range := Range.Positive }

/-- Embedding of `core::ops::acosh`. -/
def acosh (lhs : FnArg) : FnArg := return_possibilities acosh_possibilities lhs

/-- Inner classification rule of `core::ops::atanh`. -/
def atanh_possibilities (lhs : FloatPossibilities) : FloatPossibilities :=
  { nan := Possible.Yes
    zero := lhs.zero
    infinite := Possible.Yes
    range := lhs.range }

/-- Embedding of `core::ops::atanh`. -/
def atanh (lhs : FnArg) : FnArg := return_possibilities atanh_possibilities lhs

/-- Inner classification rule of `core::ops::recip`. -/
def recip_possibilities (lhs : FloatPossibilities) : FloatPossibilities :=
  { nan := lhs.nan
    zero := lhs.infinite
    infinite := lhs.zero
    range := lhs.range }

/-- Embedding of `core::ops::recip`. -/
def recip (lhs : FnArg) : FnArg := return_possibilities recip_possibilities lhs

/-- Inner classification rule of `core::ops::powi`. -/
def powi_possibilities (lhs : FloatPossibilities) : FloatPossibilities :=
  { nan := lhs.nan
    zero := Possible.Yes
    infinite := Possible.Yes
    range :=
      if lhs.range.can_be_negative = Possible.Yes then Range.Full else Range.Positive }

/-- Embedding of `core::ops::powi`. -/
def powi (lhs : FnArg) : FnArg := return_possibilities powi_possibilities lhs

end ops

end core

/-- The registry of unary transfer functions, in source order. -/
def unaryOps : List (FnArg → FnArg) :=
  [core.ops.neg, core.ops.abs, core.ops.ceil, core.ops.floor, core.ops.round,
   core.ops.trunc, core.ops.fract, core.ops.signum, core.ops.sqrt, core.ops.exp,
   core.ops.exp2, core.ops.ln, core.ops.log2, core.ops.log10, core.ops.to_degrees,
   core.ops.to_radians, core.ops.cbrt, core.ops.sin, core.ops.cos, core.ops.tan,
   core.ops.asin, core.ops.acos, core.ops.atan, core.ops.exp_m1, core.ops.ln_1p,
   core.ops.sinh, core.ops.cosh, core.ops.tanh, core.ops.asinh, core.ops.acosh,
   core.ops.atanh, core.ops.recip, core.ops.powi]

/-- Narrowness order on possibility flags: `No < WithRoundingError < Yes`. -/
def possible_le (a b : Possible) : Bool :=
  a == b || a == Possible.No || b == Possible.Yes

/-- Narrowness order on sign ranges: a range is a sub-range of itself and of `Full`. -/
def range_le (a b : Range) : Bool :=
  a == b || b == Range.Full

/-- Componentwise narrowness order on classifications. -/
def cls_le (c d : FloatPossibilities) : Bool :=
  possible_le c.nan d.nan && possible_le c.zero d.zero &&
    possible_le c.infinite d.infinite && range_le c.range d.range

/-- Narrowness order on tagged arguments: comparable only at equal widths. -/
def arg_le : FnArg → FnArg → Bool
  | FnArg.F32 p, FnArg.F32 q => cls_le p q
  | FnArg.F64 p, FnArg.F64 q => cls_le p q
  | _, _ => false

lemma possible_le_refl : ∀ a : Possible, possible_le a a = true := by decide

lemma range_le_refl : ∀ r : Range, range_le r r = true := by decide

lemma orP_mono : ∀ a b c d : Possible, possible_le a b = true → possible_le c d = true →
    possible_le (orP a c) (orP b d) = true := by decide

lemma opposite_mono : ∀ r s : Range, range_le r s = true →
    range_le r.opposite s.opposite = true := by decide

lemma can_be_positive_mono : ∀ r s : Range, range_le r s = true →
    possible_le r.can_be_positive s.can_be_positive = true := by decide

lemma can_be_negative_mono : ∀ r s : Range, range_le r s = true →
    possible_le r.can_be_negative s.can_be_negative = true := by decide

lemma negfull_mono : ∀ r s : Range, range_le r s = true →
    range_le (if r.can_be_negative = Possible.Yes then Range.Full else Range.Positive)
      (if s.can_be_negative = Possible.Yes then Range.Full else Range.Positive) = true := by
  decide

lemma cls_le_iff (c d : FloatPossibilities) : cls_le c d = true ↔
    possible_le c.nan d.nan = true ∧ possible_le c.zero d.zero = true ∧
      possible_le c.infinite d.infinite = true ∧ range_le c.range d.range = true := by
  simp [cls_le, Bool.and_eq_true, and_assoc]

lemma mono_negP : ∀ c d : FloatPossibilities, cls_le c d = true →
    cls_le (core.ops.neg_possibilities c) (core.ops.neg_possibilities d) = true := by
  intro c d h
  rw [cls_le_iff] at h ⊢
  obtain ⟨h1, h2, h3, h4⟩ := h
  exact ⟨h1, h2, h3, opposite_mono _ _ h4⟩

lemma mono_absP : ∀ c d : FloatPossibilities, cls_le c d = true →
    cls_le (core.ops.abs_possibilities c) (core.ops.abs_possibilities d) = true := by
  intro c d h
  rw [cls_le_iff] at h ⊢
  obtain ⟨h1, h2, h3, h4⟩ := h
  exact ⟨h1, h2, h3, range_le_refl _⟩

lemma mono_ceilP : ∀ c d : FloatPossibilities, cls_le c d = true →
    cls_le (core.ops.ceil_possibilities c) (core.ops.ceil_possibilities d) = true := by
  intro c d h
  rw [cls_le_iff] at h ⊢
  obtain ⟨h1, h2, h3, h4⟩ := h
  exact ⟨h1, orP_mono _ _ _ _ h2 (can_be_negative_mono _ _ h4), h3, h4⟩

lemma mono_floorP : ∀ c d : FloatPossibilities, cls_le c d = true →
    cls_le (core.ops.floor_possibilities c) (core.ops.floor_possibilities d) = true := by
  intro c d h
  rw [cls_le_iff] at h ⊢
  obtain ⟨h1, h2, h3, h4⟩ := h
  exact ⟨h1, orP_mono _ _ _ _ h2 (can_be_positive_mono _ _ h4), h3, h4⟩

lemma mono_roundP : ∀ c d : FloatPossibilities, cls_le c d = true →
    cls_le (core.ops.round_possibilities c) (core.ops.round_possibilities d) = true := by
  intro c d h
  rw [cls_le_iff] at h ⊢
  obtain ⟨h1, h2, h3, h4⟩ := h
  exact ⟨h1, possible_le_refl _, h3, h4⟩

lemma mono_truncP : ∀ c d : FloatPossibilities, cls_le c d = true →
    cls_le (core.ops.trunc_possibilities c) (core.ops.trunc_possibilities d) = true := by
  intro c d h
  rw [cls_le_iff] at h ⊢
  obtain ⟨h1, h2, h3, h4⟩ := h
  exact ⟨h1, possible_le_refl _, h3, h4⟩

lemma mono_fractP : ∀ c d : FloatPossibilities, cls_le c d = true →
    cls_le (core.ops.fract_possibilities c) (core.ops.fract_possibilities d) = true := by
  intro c d h
  rw [cls_le_iff] at h ⊢
  obtain ⟨h1, h2, h3, h4⟩ := h
  exact ⟨orP_mono _ _ _ _ h1 h3, possible_le_refl _, h3, negfull_mono _ _ h4⟩

lemma mono_signumP : ∀ c d : FloatPossibilities, cls_le c d = true →
    cls_le (core.ops.signum_possibilities c) (core.ops.signum_possibilities d) = true := by
  intro c d h
  rw [cls_le_iff] at h ⊢
  obtain ⟨h1, h2, h3, h4⟩ := h
  exact ⟨possible_le_refl _, possible_le_refl _, possible_le_refl _, h4⟩

lemma mono_sqrtP : ∀ c d : FloatPossibilities, cls_le c d = true →
    cls_le (core.ops.sqrt_possibilities c) (core.ops.sqrt_possibilities d) = true := by
  intro c d h
  rw [cls_le_iff] at h ⊢
  obtain ⟨h1, h2, h3, h4⟩ := h
  exact ⟨can_be_negative_mono _ _ h4, h2, h3, h4⟩

lemma mono_expP : ∀ c d : FloatPossibilities, cls_le c d = true →
    cls_le (core.ops.exp_possibilities c) (core.ops.exp_possibilities d) = true := by
  intro c d h
  rw [cls_le_iff] at h ⊢
  obtain ⟨h1, h2, h3, h4⟩ := h
  exact ⟨h1, can_be_negative_mono _ _ h4, can_be_positive_mono _ _ h4, range_le_refl _⟩

lemma mono_lnP : ∀ c d : FloatPossibilities, cls_le c d = true →
    cls_le (core.ops.ln_possibilities c) (core.ops.ln_possibilities d) = true := by
  intro c d h
  rw [cls_le_iff] at h ⊢
  obtain ⟨h1, h2, h3, h4⟩ := h
  exact ⟨can_be_negative_mono _ _ h4, can_be_positive_mono _ _ h4,
    orP_mono _ _ _ _ h3 h2, range_le_refl _⟩

lemma mono_to_degreesP : ∀ c d : FloatPossibilities, cls_le c d = true →
    cls_le (core.ops.to_degrees_possibilities c) (core.ops.to_degrees_possibilities d) = true := by
  intro c d h
  rw [cls_le_iff] at h ⊢
  obtain ⟨h1, h2, h3, h4⟩ := h
  exact ⟨h1, h2, possible_le_refl _, h4⟩

lemma mono_sinP : ∀ c d : FloatPossibilities, cls_le c d = true →
    cls_le (core.ops.sin_possibilities c) (core.ops.sin_possibilities d) = true := by
  intro c d h
  rw [cls_le_iff] at h ⊢
  obtain ⟨h1, h2, h3, h4⟩ := h
  exact ⟨orP_mono _ _ _ _ h1 h3, possible_le_refl _, possible_le_refl _, range_le_refl _⟩

lemma mono_tanP : ∀ c d : FloatPossibilities, cls_le c d = true →
    cls_le (core.ops.tan_possibilities c) (core.ops.tan_possibilities d) = true := by
  intro c d h
  rw [cls_le_iff] at h ⊢
  obtain ⟨h1, h2, h3, h4⟩ := h
  exact ⟨orP_mono _ _ _ _ h1 h3, possible_le_refl _, possible_le_refl _, range_le_refl _⟩

lemma mono_asinP : ∀ c d : FloatPossibilities, cls_le c d = true →
    cls_le (core.ops.asin_possibilities c) (core.ops.asin_possibilities d) = true := by
  intro c d h
  rw [cls_le_iff] at h ⊢
  obtain ⟨h1, h2, h3, h4⟩ := h
  exact ⟨possible_le_refl _, h2, possible_le_refl _, h4⟩

lemma mono_acosP : ∀ c d : FloatPossibilities, cls_le c d = true →
    cls_le (core.ops.acos_possibilities c) (core.ops.acos_possibilities d) = true := by
  intro c d h
  rw [cls_le_iff] at h ⊢
  exact ⟨possible_le_refl _, possible_le_refl _, possible_le_refl _, range_le_refl _⟩

lemma mono_atanP : ∀ c d : FloatPossibilities, cls_le c d = true →
    cls_le (core.ops.atan_possibilities c) (core.ops.atan_possibilities d) = true := by
  intro c d h
  rw [cls_le_iff] at h ⊢
  obtain ⟨h1, h2, h3, h4⟩ := h
  exact ⟨h1, h2, possible_le_refl _, h4⟩

lemma mono_exp_m1P : ∀ c d : FloatPossibilities, cls_le c d = true →
    cls_le (core.ops.exp_m1_possibilities c) (core.ops.exp_m1_possibilities d) = true := by
  intro c d h
  rw [cls_le_iff] at h ⊢
  obtain ⟨h1, h2, h3, h4⟩ := h
  exact ⟨h1, h2, can_be_positive_mono _ _ h4, h4⟩

lemma mono_ln_1pP : ∀ c d : FloatPossibilities, cls_le c d = true →
    cls_le (core.ops.ln_1p_possibilities c) (core.ops.ln_1p_possibilities d) = true := by
  intro c d h
  rw [cls_le_iff] at h ⊢
  obtain ⟨h1, h2, h3, h4⟩ := h
  exact ⟨orP_mono _ _ _ _ h1 (can_be_negative_mono _ _ h4), h2, h3, range_le_refl _⟩

lemma mono_sinhP : ∀ c d : FloatPossibilities, cls_le c d = true →
    cls_le (core.ops.sinh_possibilities c) (core.ops.sinh_possibilities d) = true := by
  intro c d h
  rw [cls_le_iff] at h ⊢
  obtain ⟨h1, h2, h3, h4⟩ := h
  exact ⟨h1, h2, possible_le_refl _, h4⟩

lemma mono_coshP : ∀ c d : FloatPossibilities, cls_le c d = true →
    cls_le (core.ops.cosh_possibilities c) (core.ops.cosh_possibilities d) = true := by
  intro c d h
  rw [cls_le_iff] at h ⊢
  obtain ⟨h1, h2, h3, h4⟩ := h
  exact ⟨h1, possible_le_refl _, possible_le_refl _, range_le_refl _⟩

lemma mono_tanhP : ∀ c d : FloatPossibilities, cls_le c d = true →
    cls_le (core.ops.tanh_possibilities c) (core.ops.tanh_possibilities d) = true := by
  intro c d h
  rw [cls_le_iff] at h ⊢
  obtain ⟨h1, h2, h3, h4⟩ := h
  exact ⟨h1, h2, possible_le_refl _, h4⟩

lemma mono_asinhP : ∀ c d : FloatPossibilities, cls_le c d = true →
    cls_le (core.ops.asinh_possibilities c) (core.ops.asinh_possibilities d) = true := by
  intro c d h
  rw [cls_le_iff] at h ⊢
  obtain ⟨h1, h2, h3, h4⟩ := h
  exact ⟨h1, h2, possible_le_refl _, h4⟩

lemma mono_acoshP : ∀ c d : FloatPossibilities, cls_le c d = true →
    cls_le (core.ops.acosh_possibilities c) (core.ops.acosh_possibilities d) = true := by
  intro c d h
  rw [cls_le_iff] at h ⊢
  exact ⟨possible_le_refl _, possible_le_refl _, possible_le_refl _, range_le_refl _⟩

lemma mono_atanhP : ∀ c d : FloatPossibilities, cls_le c d = true →
    cls_le (core.ops.atanh_possibilities c) (core.ops.atanh_possibilities d) = true := by
  intro c d h
  rw [cls_le_iff] at h ⊢
  obtain ⟨h1, h2, h3, h4⟩ := h
  exact ⟨possible_le_refl _, h2, possible_le_refl _, h4⟩

lemma mono_recipP : ∀ c d : FloatPossibilities, cls_le c d = true →
    cls_le (core.ops.recip_possibilities c) (core.ops.recip_possibilities d) = true := by
  intro c d h
  rw [cls_le_iff] at h ⊢
  obtain ⟨h1, h2, h3, h4⟩ := h
  exact ⟨h1, h3, h2, h4⟩

lemma mono_powiP : ∀ c d : FloatPossibilities, cls_le c d = true →
    cls_le (core.ops.powi_possibilities c) (core.ops.powi_possibilities d) = true := by
  intro c d h
  rw [cls_le_iff] at h ⊢
  obtain ⟨h1, h2, h3, h4⟩ := h
  exact ⟨h1, possible_le_refl _, possible_le_refl _, negfull_mono _ _ h4⟩

lemma return_mono {g : FloatPossibilities → FloatPossibilities}
    (hg : ∀ p q, cls_le p q = true → cls_le (g p) (g q) = true) :
    ∀ a b : FnArg, arg_le a b = true →
      arg_le (return_possibilities g a) (return_possibilities g b) = true := by
  intro a b h
  cases a <;> cases b <;> first
    | exact hg _ _ h
    | exact Bool.noConfusion h

lemma absorb_lift {g : FloatPossibilities → FloatPossibilities}
    (hg : ∀ p : FloatPossibilities, p.nan = Possible.Yes → (g p).nan = Possible.Yes) :
    ∀ a : FnArg, a.possibilities.nan = Possible.Yes →
      ((return_possibilities g a).possibilities).nan = Possible.Yes := by
  intro a h
  cases a <;> exact hg _ h

/-- The registry members whose rule never discards an input NaN possibility:
every unary transfer function except `signum` (which forces nan to No) and
`sqrt`, `ln`, `log2`, `log10` (which compute nan from the sign range alone). -/
def absorbingOps : List (FnArg → FnArg) :=
  [core.ops.neg, core.ops.abs, core.ops.ceil, core.ops.floor, core.ops.round,
   core.ops.trunc, core.ops.fract, core.ops.exp, core.ops.exp2,
   core.ops.to_degrees, core.ops.to_radians,
   core.ops.cbrt, core.ops.sin, core.ops.cos, core.ops.tan, core.ops.asin,
   core.ops.acos, core.ops.atan, core.ops.exp_m1, core.ops.ln_1p, core.ops.sinh,
   core.ops.cosh, core.ops.tanh, core.ops.asinh, core.ops.acosh, core.ops.atanh,
   core.ops.recip, core.ops.powi]

/-- Modelled from the spec: the sign-range lattice of the boolean Classification
contract of section 3 (the boolean-model matcher and binary operations of this
repository are not under src). -/
inductive SignRange
  | Full
  | PositiveOnly
  | NegativeOnly
deriving DecidableEq

/-- Modelled from the spec: canBePositive is true unless NegativeOnly. -/
def SignRange.canBePositive : SignRange → Bool
  | SignRange.NegativeOnly => false
  | _ => true

/-- Modelled from the spec: canBeNegative is true unless PositiveOnly. -/
def SignRange.canBeNegative : SignRange → Bool
  | SignRange.PositiveOnly => false
  | _ => true

/-- Modelled from the spec: the boolean Classification record of section 3
(nan, zero, infinite flags and a sign range), the stable boolean contract. -/
structure Classification where
  nan : Bool
  zero : Bool
  infinite : Bool
  range : SignRange
deriving DecidableEq

/-- Modelled from the spec: a catalog entry of section 3, an acceptance
predicate over classifications; every entry has acceptsNaN false. -/
structure CategoryDefinition where
  name : String
  acceptsNaN : Bool
  acceptsZero : Bool
  acceptsInfinite : Bool
  acceptsPositive : Bool
  acceptsNegative : Bool
deriving DecidableEq

/-- Modelled from the spec: the fixed catalog of refined float categories,
listed from most restrictive to least restrictive (a linear extension of the
acceptance partial order), with the acceptance flags of the typed-floats
categories. -/
def catalog : List CategoryDefinition :=
  [⟨"StrictlyPositiveFinite", false, false, false, true, false⟩,
   ⟨"StrictlyNegativeFinite", false, false, false, false, true⟩,
   ⟨"NonZeroNonNaNFinite", false, false, false, true, true⟩,
   ⟨"PositiveFinite", false, true, false, true, false⟩,
   ⟨"NegativeFinite", false, true, false, false, true⟩,
   ⟨"NonNaNFinite", false, true, false, true, true⟩,
   ⟨"StrictlyPositive", false, false, true, true, false⟩,
   ⟨"StrictlyNegative", false, false, true, false, true⟩,
   ⟨"NonZeroNonNaN", false, false, true, true, true⟩,
   ⟨"Positive", false, true, true, true, false⟩,
   ⟨"Negative", false, true, true, false, true⟩,
   ⟨"NonNaN", false, true, true, true, true⟩]

/-- Modelled from the spec: a category accepts a classification when every
possible feature of the classification is allowed by the category. -/
def accepts (cat : CategoryDefinition) (c : Classification) : Bool :=
  (!c.nan || cat.acceptsNaN) && (!c.zero || cat.acceptsZero) &&
    (!c.infinite || cat.acceptsInfinite) &&
    (!c.range.canBePositive || cat.acceptsPositive) &&
    (!c.range.canBeNegative || cat.acceptsNegative)

/-- Modelled from the spec: the Category Matcher of section 4.3 — none
immediately when nan is possible, otherwise the first (narrowest) accepting
catalog entry. -/
def matchClassification (c : Classification) : Option CategoryDefinition :=
  if c.nan then none else catalog.find? (fun cat => accepts cat c)

/-- Modelled from the spec: bridge from the source's tri-state classification
to the boolean contract — a flag is considered possible unless it is No. -/
def toClassification (p : FloatPossibilities) : Classification :=
  { nan := p.nan ≠ Possible.No
    zero := p.zero ≠ Possible.No
    infinite := p.infinite ≠ Possible.No
    range :=
      match p.range with
      | Range.Full => SignRange.Full
      | Range.Positive => SignRange.PositiveOnly
      | Range.Negative => SignRange.NegativeOnly }

/-- Category match of a tagged argument: the matcher run on its classification. -/
def matchArg (a : FnArg) : Option CategoryDefinition :=
  matchClassification (toClassification a.possibilities)

/-- Modelled from the spec: the sign-product rule shared by multiply and
divide — Full when either operand is Full, the product of signs otherwise. -/
def signProduct : SignRange → SignRange → SignRange
  | SignRange.Full, _ => SignRange.Full
  | _, SignRange.Full => SignRange.Full
  | SignRange.PositiveOnly, SignRange.PositiveOnly => SignRange.PositiveOnly
  | SignRange.NegativeOnly, SignRange.NegativeOnly => SignRange.PositiveOnly
  | SignRange.PositiveOnly, SignRange.NegativeOnly => SignRange.NegativeOnly
  | SignRange.NegativeOnly, SignRange.PositiveOnly => SignRange.NegativeOnly

/-- Modelled from the spec: the binary divide transfer function of section 4.2
(binary operations of this repository are not under src): zero possible if the
numerator can be zero or the denominator infinite; infinite possible if the
denominator can be zero or the numerator infinite; nan possible if either is
nan or zero over zero or infinite over infinite is reachable; range by the
sign-product rule. -/
def divide (lhs rhs : Classification) : Classification :=
  { nan := lhs.nan || rhs.nan || (lhs.zero && rhs.zero) || (lhs.infinite && rhs.infinite)
    zero := lhs.zero || rhs.infinite
    infinite := rhs.zero || lhs.infinite
    range := signProduct lhs.range rhs.range }

/-- C1: for every unary transfer function in the registry and every pair of
input arguments with the first componentwise narrower than the second (each
possibility flag under No < WithRoundingError < Yes and the sign range a
sub-range under Positive, Negative < Full), the output of the function on the
first is componentwise narrower than its output on the second: widening an
input never narrows any output flag. -/
theorem claim_C1 : ∀ f ∈ unaryOps, ∀ a b : FnArg, arg_le a b = true →
    arg_le (f a) (f b) = true := by
  intro f hf
  simp only [unaryOps, List.mem_cons, List.not_mem_nil, or_false] at hf
  rcases hf with rfl | rfl | rfl | rfl | rfl | rfl | rfl | rfl | rfl | rfl | rfl | rfl |
    rfl | rfl | rfl | rfl | rfl | rfl | rfl | rfl | rfl | rfl | rfl | rfl | rfl | rfl |
    rfl | rfl | rfl | rfl | rfl | rfl | rfl
  · exact return_mono mono_negP
  · exact return_mono mono_absP
  · exact return_mono mono_ceilP
  · exact return_mono mono_floorP
  · exact return_mono mono_roundP
  · exact return_mono mono_truncP
  · exact return_mono mono_fractP
  · exact return_mono mono_signumP
  · exact return_mono mono_sqrtP
  · exact return_mono mono_expP
  · exact return_mono mono_expP
  · exact return_mono mono_lnP
  · exact return_mono mono_lnP
  · exact return_mono mono_lnP
  · exact return_mono mono_to_degreesP
  · exact fun a b h => h
  · exact fun a b h => h
  · exact return_mono mono_sinP
  · exact return_mono mono_sinP
  · exact return_mono mono_tanP
  · exact return_mono mono_asinP
  · exact return_mono mono_acosP
  · exact return_mono mono_atanP
  · exact return_mono mono_exp_m1P
  · exact return_mono mono_ln_1pP
  · exact return_mono mono_sinhP
  · exact return_mono mono_coshP
  · exact return_mono mono_tanhP
  · exact return_mono mono_asinhP
  · exact return_mono mono_acoshP
  · exact return_mono mono_atanhP
  · exact return_mono mono_recipP
  · exact return_mono mono_powiP

/-- Witness for C1: the ceiling transfer function, applied to a concrete
narrower and wider pair of classifications, preserves the narrowness order. -/
theorem claim_C1_witness :
    (core.ops.ceil ∈ unaryOps ∧
      arg_le (FnArg.F32 ⟨Possible.No, Possible.No, Possible.No, Range.Positive⟩)
        (FnArg.F32 ⟨Possible.Yes, Possible.No, Possible.No, Range.Full⟩) = true) ∧
    arg_le (core.ops.ceil (FnArg.F32 ⟨Possible.No, Possible.No, Possible.No, Range.Positive⟩))
      (core.ops.ceil (FnArg.F32 ⟨Possible.Yes, Possible.No, Possible.No, Range.Full⟩)) = true :=
  ⟨⟨by simp [unaryOps], by decide⟩,
    claim_C1 core.ops.ceil (by simp [unaryOps]) _ _ (by decide)⟩

/-- C2 (amended): for every unary transfer function in the registry except
signum, sqrt, ln, log2 and log10, if the input classification has nan
possible (Yes), the output classification also has nan possible; signum
unconditionally clears the nan flag, and sqrt, ln, log2 and log10 compute it
from the sign range alone, so those five can discard an input NaN. -/
theorem claim_C2 : ∀ f ∈ absorbingOps, ∀ a : FnArg,
    a.possibilities.nan = Possible.Yes → ((f a).possibilities).nan = Possible.Yes := by
  intro f hf
  simp only [absorbingOps, List.mem_cons, List.not_mem_nil, or_false] at hf
  rcases hf with rfl | rfl | rfl | rfl | rfl | rfl | rfl | rfl | rfl | rfl | rfl | rfl |
    rfl | rfl | rfl | rfl | rfl | rfl | rfl | rfl | rfl | rfl | rfl | rfl | rfl | rfl |
    rfl | rfl
  · exact absorb_lift (by decide)
  · exact absorb_lift (by decide)
  · exact absorb_lift (by decide)
  · exact absorb_lift (by decide)
  · exact absorb_lift (by decide)
  · exact absorb_lift (by decide)
  · exact absorb_lift (by decide)
  · exact absorb_lift (by decide)
  · exact absorb_lift (by decide)
  · exact absorb_lift (by decide)
  · exact fun a h => h
  · exact fun a h => h
  · exact absorb_lift (by decide)
  · exact absorb_lift (by decide)
  · exact absorb_lift (by decide)
  · exact absorb_lift (by decide)
  · exact absorb_lift (by decide)
  · exact absorb_lift (by decide)
  · exact absorb_lift (by decide)
  · exact absorb_lift (by decide)
  · exact absorb_lift (by decide)
  · exact absorb_lift (by decide)
  · exact absorb_lift (by decide)
  · exact absorb_lift (by decide)
  · exact absorb_lift (by decide)
  · exact absorb_lift (by decide)
  · exact absorb_lift (by decide)
  · exact absorb_lift (by decide)

/-- Counterexample to C2 as stated: signum is in the registry and does not
override nan per a domain restriction, yet on an input with nan possible it
returns a classification with nan impossible; ln likewise drops a possible
input NaN whenever the sign range cannot be negative. -/
theorem claim_C2_cex :
    (core.ops.signum ∈ unaryOps ∧
      (FnArg.F64 ⟨Possible.Yes, Possible.No, Possible.No, Range.Full⟩).possibilities.nan
        = Possible.Yes ∧
      ((core.ops.signum
          (FnArg.F64 ⟨Possible.Yes, Possible.No, Possible.No, Range.Full⟩)).possibilities).nan
        = Possible.No) ∧
    (core.ops.ln ∈ unaryOps ∧
      (FnArg.F64 ⟨Possible.Yes, Possible.No, Possible.No, Range.Positive⟩).possibilities.nan
        = Possible.Yes ∧
      ((core.ops.ln
          (FnArg.F64 ⟨Possible.Yes, Possible.No, Possible.No, Range.Positive⟩)).possibilities).nan
        = Possible.No) :=
  ⟨⟨by simp [unaryOps], rfl, rfl⟩, ⟨by simp [unaryOps], rfl, rfl⟩⟩

/-- Witness for C2: the fractional-part transfer function propagates a
possible NaN on a concrete input. -/
theorem claim_C2_witness :
    (core.ops.fract ∈ absorbingOps ∧
      (FnArg.F32 ⟨Possible.Yes, Possible.No, Possible.No, Range.Full⟩).possibilities.nan
        = Possible.Yes) ∧
    ((core.ops.fract
        (FnArg.F32 ⟨Possible.Yes, Possible.No, Possible.No, Range.Full⟩)).possibilities).nan
      = Possible.Yes :=
  ⟨⟨by simp [absorbingOps], rfl⟩,
    claim_C2 core.ops.fract (by simp [absorbingOps]) _ rfl⟩

/-- C3: for every input, ln yields range Full; zero possible exactly when the
input sign range can be positive (is not Negative); infinite possible exactly
when the input is possibly infinite or possibly zero; nan possible exactly
when the input sign range can be negative (is not Positive). -/
theorem claim_C3 : ∀ a : FnArg,
    ((core.ops.ln a).possibilities).range = Range.Full ∧
    (((core.ops.ln a).possibilities).zero ≠ Possible.No ↔
      a.possibilities.range ≠ Range.Negative) ∧
    (((core.ops.ln a).possibilities).infinite ≠ Possible.No ↔
      (a.possibilities.infinite ≠ Possible.No ∨ a.possibilities.zero ≠ Possible.No)) ∧
    (((core.ops.ln a).possibilities).nan ≠ Possible.No ↔
      a.possibilities.range ≠ Range.Positive) := by
  intro a
  cases a with
  | F32 p => revert p; decide
  | F64 p => revert p; decide

/-- C4: log2 and log10 return, field by field, the same classification as ln
on every input. -/
theorem claim_C4 : ∀ a : FnArg,
    core.ops.log2 a = core.ops.ln a ∧ core.ops.log10 a = core.ops.ln a :=
  fun _ => ⟨rfl, rfl⟩

/-- C5: fract always makes zero possible; nan is possible exactly when the
input is possibly nan or possibly infinite; the output range is Positive when
the input range cannot be negative and Full otherwise. -/
theorem claim_C5 : ∀ a : FnArg,
    ((core.ops.fract a).possibilities).zero = Possible.Yes ∧
    (((core.ops.fract a).possibilities).nan ≠ Possible.No ↔
      (a.possibilities.nan ≠ Possible.No ∨ a.possibilities.infinite ≠ Possible.No)) ∧
    ((core.ops.fract a).possibilities).range =
      (if a.possibilities.range.can_be_negative = Possible.No then Range.Positive
       else Range.Full) := by
  intro a
  cases a with
  | F32 p => revert p; decide
  | F64 p => revert p; decide

/-- C6: signum returns a classification with zero, infinite and nan all
impossible and the sign range of the input unchanged. -/
theorem claim_C6 : ∀ a : FnArg,
    ((core.ops.signum a).possibilities).zero = Possible.No ∧
    ((core.ops.signum a).possibilities).infinite = Possible.No ∧
    ((core.ops.signum a).possibilities).nan = Possible.No ∧
    ((core.ops.signum a).possibilities).range = a.possibilities.range := by
  intro a
  cases a <;> exact ⟨rfl, rfl, rfl, rfl⟩

/-- C7: negating twice restores the original classification exactly (negate
only flips the sign range through opposite, leaving nan, zero and infinite
unchanged), so the category match of the double negation equals the category
match of the original. -/
theorem claim_C7 : ∀ a : FnArg,
    core.ops.neg (core.ops.neg a) = a ∧
    matchArg (core.ops.neg (core.ops.neg a)) = matchArg a := by
  intro a
  have h : core.ops.neg (core.ops.neg a) = a := by
    cases a with
    | F32 p => revert p; decide
    | F64 p => revert p; decide
  exact ⟨h, by rw [h]⟩

/-- C8: dividing two possibly-zero, non-infinite, non-nan, positive-only
classifications yields an output with nan possible (zero over zero is
reachable), and the matcher returns no catalog category on that output. -/
theorem claim_C8 :
    (divide ⟨false, true, false, SignRange.PositiveOnly⟩
      ⟨false, true, false, SignRange.PositiveOnly⟩).nan = true ∧
    matchClassification (divide ⟨false, true, false, SignRange.PositiveOnly⟩
      ⟨false, true, false, SignRange.PositiveOnly⟩) = none := by
  exact ⟨rfl, rfl⟩

/-- C9: opposite maps Full to Full and swaps Positive and Negative;
can_be_positive is possible for every sign range except Negative;
can_be_negative is possible for every sign range except Positive. -/
theorem claim_C9 :
    Range.Full.opposite = Range.Full ∧
    Range.Positive.opposite = Range.Negative ∧
    Range.Negative.opposite = Range.Positive ∧
    (∀ r : Range, r.can_be_positive = Possible.Yes ↔ r ≠ Range.Negative) ∧
    (∀ r : Range, r.can_be_negative = Possible.Yes ↔ r ≠ Range.Positive) := by
  decide

/-- C10: every unary transfer function in the registry maps an F32-tagged
argument to an F32-tagged result and an F64-tagged argument to an F64-tagged
result, applying the same classification rule to the carried classification
in both cases. -/
theorem claim_C10 : ∀ f ∈ unaryOps, ∀ p : FloatPossibilities,
    f (FnArg.F32 p) = FnArg.F32 ((f (FnArg.F64 p)).possibilities) ∧
    f (FnArg.F64 p) = FnArg.F64 ((f (FnArg.F32 p)).possibilities) := by
  intro f hf
  simp only [unaryOps, List.mem_cons, List.not_mem_nil, or_false] at hf
  rcases hf with rfl | rfl | rfl | rfl | rfl | rfl | rfl | rfl | rfl | rfl | rfl | rfl |
    rfl | rfl | rfl | rfl | rfl | rfl | rfl | rfl | rfl | rfl | rfl | rfl | rfl | rfl |
    rfl | rfl | rfl | rfl | rfl | rfl | rfl
  all_goals exact fun p => ⟨rfl, rfl⟩

/-- Witness for C10: the negate transfer function preserves the width tag on
a concrete classification, with the same result under either tag. -/
theorem claim_C10_witness :
    core.ops.neg ∈ unaryOps ∧
    (core.ops.neg (FnArg.F32 ⟨Possible.Yes, Possible.No, Possible.No, Range.Positive⟩)
        = FnArg.F32 ((core.ops.neg
            (FnArg.F64 ⟨Possible.Yes, Possible.No, Possible.No, Range.Positive⟩)).possibilities) ∧
      core.ops.neg (FnArg.F64 ⟨Possible.Yes, Possible.No, Possible.No, Range.Positive⟩)
        = FnArg.F64 ((core.ops.neg
            (FnArg.F32 ⟨Possible.Yes, Possible.No, Possible.No, Range.Positive⟩)).possibilities)) :=
  ⟨by simp [unaryOps],
    claim_C10 core.ops.neg (by simp [unaryOps])
      ⟨Possible.Yes, Possible.No, Possible.No, Range.Positive⟩⟩

end FloatFnTypes
